import Mathlib

/-!
Shallow embedding of the `round` Go package (file `round.go`) and proofs
about its specification claims.

Machine integers are modelled as `Int` with explicit wrapping where the
source performs 64-bit machine arithmetic:

* a Go `int64` value is an `Int` in `[-2^63, 2^63)`; every machine
  operation that can leave that range is wrapped with `wrap64`;
* a Go `uint64` value is an `Int` in `[0, 2^64)`; wrapping uses `uwrap64`;
* Go's signed `%` and `/` truncate toward zero, so they are `Int.tmod`
  and `Int.tdiv`;
* indexing the 20-entry `pow10tab` out of range is a Go run-time panic,
  modelled with `Option` (`none` = panic);
* the recursion of `DurationN` on negative inputs is modelled with
  explicit fuel (`Res.more` = the fuel ran out, i.e. the recursion has
  not yet produced a value).
-/

namespace Round

/-- Reduce an unbounded integer to the Go `int64` value with the same
residue mod `2^64`: the result is in `[-2^63, 2^63)`. -/
def wrap64 (x : Int) : Int := (x + 2 ^ 63) % 2 ^ 64 - 2 ^ 63

/-- Reduce an unbounded integer to the Go `uint64` value with the same
residue mod `2^64`: the result is in `[0, 2^64)`. -/
def uwrap64 (x : Int) : Int := x % 2 ^ 64

/-- The branch-and-adjust core of `Int64` (source lines 97-101), acting on
the absolute value `a`: `r := a % n` (Go signed `%` = `tmod`), then
`if r+r < n { a - r } else { a + n - r }`, every machine operation
wrapping at 64 bits. -/
def stepRound (a n : Int) : Int :=
  if wrap64 (Int.tmod a n + Int.tmod a n) < n then wrap64 (a - Int.tmod a n)
  else wrap64 (wrap64 (a + n) - Int.tmod a n)

/-- Go `func Int64(v, n int64) int64` (round `v` to the nearest multiple of
`n`; halves round up in magnitude). `neg := v < 0; if neg { v = -v }` is the
leading sign split, `stepRound` is the loop-free core, and the trailing
`if neg { return -v }` restores the sign. All negations wrap at 64 bits. -/
def Int64 (v n : Int) : Int :=
  if n ≤ 1 then v
  else if v < 0 then wrap64 (-stepRound (wrap64 (-v)) n)
  else stepRound v n

/-- Go `func Uint64(v, n uint64) uint64`: the same rounding core without the
sign handling, on `uint64` arithmetic (wrapping at `2^64`, `%` is plain
nonnegative remainder). -/
def Uint64 (v n : Int) : Int :=
  if n ≤ 1 then v
  else if uwrap64 (v % n + v % n) < n then uwrap64 (v - v % n)
  else uwrap64 (uwrap64 (v + n) - v % n)

/-- Go `func Duration(d, n time.Duration) time.Duration`: a `time.Duration`
is an `int64` count of nanoseconds, so this is exactly `Int64`. -/
def Duration (d n : Int) : Int := Int64 d n

/-- The rounding algorithm exactly as the spec words it, on the absolute
value: compute the remainder `r = |value| mod step`; if `2r < step` round
down (subtract `r`), else round up (add `step - r`) — in unbounded integer
arithmetic. Used to compare the source against the claim. -/
def specPosRound (a n : Int) : Int :=
  if 2 * (a % n) < n then a - a % n else a + n - a % n

/-- `roundToStep` exactly as claim C1 / spec 4.1 words it for the signed
variant: take the absolute value, round it with `specPosRound`, restore the
original sign — in unbounded integer arithmetic. -/
def specRoundToStep (v n : Int) : Int :=
  if n ≤ 1 then v
  else if v < 0 then -specPosRound (v.natAbs : Int) n
  else specPosRound (v.natAbs : Int) n

/-- `roundToStep` as the claim words it for the unsigned variant: identical
but without the sign step. -/
def specRoundToStepU (v n : Int) : Int :=
  if n ≤ 1 then v else specPosRound v n

/-- The shared `d := 1; for v > 9 { v /= 10; d++ }` loop of `i64digits` and
`u64digits`, unrolled against an iteration bound so that it reduces in the
kernel. The loop body only runs for `v > 9`, where Go's truncated division
agrees with `Int` floor division `/`. -/
def digitCountGo : Nat → Int → Int
  | 0, _ => 1
  | f + 1, v => if 9 < v then digitCountGo f (v / 10) + 1 else 1

/-- The digit-counting loop on a 64-bit value: every `uint64` is below
`10^20`, so the loop body runs at most 19 times and 20 iterations always
reach the exit condition (`decimalDigitsGo_fuel` below shows any
sufficient bound gives the same count). -/
def digitCountLoop (v : Int) : Int := digitCountGo 20 v

/-- Go `func i64digits(v int64) int`: `if v < 0 { v = -v }` (a machine
negation, which wraps at the minimum `int64`), then the counting loop. -/
def i64digits (v : Int) : Int :=
  digitCountLoop (if v < 0 then wrap64 (-v) else v)

/-- Go `func u64digits(v uint64) int`: the counting loop directly. -/
def u64digits (v : Int) : Int := digitCountLoop v

/-- The same division-counting recursion on `Nat`, used to define the
spec-side decimal digit count. -/
def decimalDigitsGo : Nat → Nat → Nat
  | 0, _ => 1
  | f + 1, m => if 9 < m then decimalDigitsGo f (m / 10) + 1 else 1

/-- Spec-side digit count: the length of the decimal representation of
`m`, with `decimalDigits 0 = 1` (the spec's `digitCount`): one digit per
division by ten until the value is a single digit. `m` itself is always a
sufficient iteration bound. -/
def decimalDigits (m : Nat) : Nat := decimalDigitsGo m m

/-- Go `pow10tab [20]uint64`, filled by `init` with the exact powers
`10^0 .. 10^19` (all below `2^64`, so no entry wraps); indexing out of the
range `[0, 19]` is a run-time panic, modelled as `none`. -/
def pow10tab (e : Nat) : Option Int :=
  if e < 20 then some ((10:Int) ^ e) else none

/-- Go `func i64pow10(b int64, e int) int64`: `b / int64(pow10tab[-e])` for
negative `e`, else `b * int64(pow10tab[e])`. The `uint64` → `int64`
conversion and the product wrap at 64 bits; the division is Go's truncated
division. `none` is the out-of-table panic. -/
def i64pow10 (b e : Int) : Option Int :=
  if e < 0 then (pow10tab (-e).toNat).map (fun p => Int.tdiv b (wrap64 p))
  else (pow10tab e.toNat).map (fun p => wrap64 (b * wrap64 p))

/-- Go `func u64pow10(b uint64, e int) uint64`: the unsigned counterpart
(`uint64` division of nonnegative values, product wrapping at `2^64`). -/
def u64pow10 (b e : Int) : Option Int :=
  if e < 0 then (pow10tab (-e).toNat).map (fun p => b / p)
  else (pow10tab e.toNat).map (fun p => uwrap64 (b * p))

/-- Go `func Int64N(v int64, n int) int64`: round `v` to `n` significant
decimal figures. `none` would be an out-of-table panic (which never happens
here since `i64digits ≤ 19`). -/
def Int64N (v n : Int) : Option Int :=
  if n ≤ 0 then some v
  else if 0 < i64digits v - n then
    (i64pow10 1 (i64digits v - n)).map (fun s => Int64 v s)
  else some v

/-- Go `func Uint64N(v uint64, n int) uint64`. -/
def Uint64N (v n : Int) : Option Int :=
  if n ≤ 0 then some v
  else if 0 < u64digits v - n then
    (u64pow10 1 (u64digits v - n)).map (fun s => Uint64 v s)
  else some v

/-- Outcome of running a Go function that may panic or may not have
produced a value yet with the given recursion fuel. -/
inductive Res where
  | ok : Int → Res
  | panic : Res
  | more : Res
deriving DecidableEq

/-- `return Int64(v, step)` after a pow10 lookup that may panic. -/
def resInt64 (v : Int) (o : Option Int) : Res :=
  match o with
  | some s => Res.ok (Int64 v s)
  | none => Res.panic

/-- `return Int64N(v, n)` lifted to `Res`. -/
def resInt64N (v n : Int) : Res :=
  match Int64N v n with
  | some x => Res.ok x
  | none => Res.panic

/-- Go `time.Second` in nanoseconds. -/
def second : Int := 1000000000

/-- Go `time.Minute` in nanoseconds. -/
def minute : Int := 60000000000

/-- Go `time.Hour` in nanoseconds. -/
def hour : Int := 3600000000000

/-- The body of Go `func DurationN(d time.Duration, n int) time.Duration`
after the `n <= 0` and `d < 0` tests, operating on the nanosecond count
`v = int64(d) ≥ 0` (Go `/` and `%` on nonnegative `int64` are `tdiv` and
`tmod`). -/
def durationNBody (v n : Int) : Res :=
  if hour ≤ v then
    if n ≤ i64digits (Int.tdiv v hour) then
      resInt64 v (i64pow10 hour (i64digits (Int.tdiv v hour) - n))
    else
      if n - i64digits (Int.tdiv v hour) ≤
          i64digits (Int.tdiv (Int.tmod v hour) minute) then
        resInt64 v (i64pow10 minute
          (i64digits (Int.tdiv (Int.tmod v hour) minute)
            - (n - i64digits (Int.tdiv v hour))))
      else
        resInt64 v (i64pow10 (100 * second)
          (i64digits (Int.tdiv (Int.tmod v hour) minute)
            - (n - i64digits (Int.tdiv v hour))))
  else if minute ≤ v then
    if n ≤ i64digits (Int.tdiv v minute) then
      resInt64 v (i64pow10 minute (i64digits (Int.tdiv v minute) - n))
    else
      resInt64 v (i64pow10 (100 * second) (i64digits (Int.tdiv v minute) - n))
  else resInt64N v n

/-- Go `func DurationN(d time.Duration, n int) time.Duration` with explicit
recursion fuel: `if n <= 0 { return d }`, `if d < 0 { return -DurationN(-d, n) }`
(both negations wrap at 64 bits), else the tiered body. -/
def DurationN : Nat → Int → Int → Res
  | 0, _, _ => Res.more
  | fuel + 1, d, n =>
    if n ≤ 0 then Res.ok d
    else if d < 0 then
      match DurationN fuel (wrap64 (-d)) n with
      | Res.ok x => Res.ok (wrap64 (-x))
      | r => r
    else durationNBody d n

theorem wrap64_eq_self {x : Int} (h1 : -(2 ^ 63) ≤ x) (h2 : x < 2 ^ 63) :
    wrap64 x = x := by
  unfold wrap64
  have h : (x + 2 ^ 63) % 2 ^ 64 = x + 2 ^ 63 :=
    Int.emod_eq_of_lt (by omega) (by omega)
  omega

theorem wrap64_lb (x : Int) : -(2 ^ 63) ≤ wrap64 x := by
  unfold wrap64
  have h := Int.emod_nonneg (x + 2 ^ 63) (by norm_num : (2:Int) ^ 64 ≠ 0)
  omega

theorem wrap64_ub (x : Int) : wrap64 x < 2 ^ 63 := by
  unfold wrap64
  have h := Int.emod_lt_of_pos (x + 2 ^ 63) (by norm_num : (0:Int) < 2 ^ 64)
  omega

theorem wrap64_sub_mul (z k : Int) : wrap64 (z - 2 ^ 64 * k) = wrap64 z := by
  unfold wrap64
  have h : z - 2 ^ 64 * k + 2 ^ 63 = z + 2 ^ 63 + 2 ^ 64 * (-k) := by ring
  rw [h, Int.add_mul_emod_self_left]

theorem wrap64_as_sub (x : Int) :
    wrap64 x = x - 2 ^ 64 * ((x + 2 ^ 63) / 2 ^ 64) := by
  unfold wrap64
  rw [Int.emod_def]
  ring

theorem wrap64_wrap_sub (x y : Int) : wrap64 (wrap64 x - y) = wrap64 (x - y) := by
  rw [wrap64_as_sub x]
  have h : x - 2 ^ 64 * ((x + 2 ^ 63) / 2 ^ 64) - y
      = x - y - 2 ^ 64 * ((x + 2 ^ 63) / 2 ^ 64) := by ring
  rw [h, wrap64_sub_mul]

theorem uwrap64_eq_self {x : Int} (h1 : 0 ≤ x) (h2 : x < 2 ^ 64) :
    uwrap64 x = x := Int.emod_eq_of_lt h1 h2

theorem uwrap64_wrap_sub (x y : Int) :
    uwrap64 (uwrap64 x - y) = uwrap64 (x - y) := by
  unfold uwrap64
  conv_rhs => rw [Int.sub_emod]
  rw [Int.sub_emod (x % 2 ^ 64), Int.emod_emod_of_dvd x (dvd_refl _)]

theorem specPosRound_dvd (a n : Int) : n ∣ specPosRound a n := by
  unfold specPosRound
  have hd : a - a % n = n * (a / n) := by rw [Int.emod_def]; ring
  split
  · exact ⟨a / n, hd⟩
  · exact ⟨a / n + 1, by rw [Int.mul_add, ← hd]; ring⟩

theorem specPosRound_bounds (a n : Int) (ha : 0 ≤ a) (hn : 1 < n) :
    0 ≤ specPosRound a n ∧ specPosRound a n ≤ a + n - a % n := by
  have hr1 : 0 ≤ a % n := Int.emod_nonneg a (by omega)
  have hr2 : a % n < n := Int.emod_lt_of_pos a (by omega)
  have hra : a % n ≤ a := by
    rcases lt_or_le a n with h | h
    · rw [Int.emod_eq_of_lt ha h]
    · omega
  unfold specPosRound
  split <;> omega

/-- Core equivalence: on a nonnegative `int64` value whose doubled
remainder and (when taken) round-up result stay below `2^63`, the machine
rounding core agrees with the spec's unbounded-arithmetic algorithm. -/
theorem stepRound_eq_spec (a n : Int) (ha : 0 ≤ a) (ha2 : a < 2 ^ 63)
    (hn : 1 < n) (hn2 : n < 2 ^ 63)
    (h2r : 2 * (a % n) < 2 ^ 63)
    (hup : n ≤ 2 * (a % n) → a + n - a % n < 2 ^ 63) :
    stepRound a n = specPosRound a n := by
  have hr0 : Int.tmod a n = a % n := Int.tmod_eq_emod ha (by omega)
  have hr1 : 0 ≤ a % n := Int.emod_nonneg a (by omega)
  have hr2 : a % n < n := Int.emod_lt_of_pos a (by omega)
  have hra : a % n ≤ a := by
    rcases lt_or_le a n with h | h
    · rw [Int.emod_eq_of_lt ha h]
    · omega
  unfold stepRound specPosRound
  rw [hr0]
  have hrr : wrap64 (a % n + a % n) = a % n + a % n :=
    wrap64_eq_self (by omega) (by omega)
  rw [hrr]
  rcases lt_or_le (a % n + a % n) n with h | h
  · rw [if_pos h, if_pos (by omega)]
    exact wrap64_eq_self (by omega) (by omega)
  · rw [if_neg (by omega), if_neg (by omega)]
    rw [wrap64_wrap_sub]
    have hb := hup (by omega)
    have h1 : a + n - a % n ≥ 0 := by omega
    rw [wrap64_eq_self (by omega) (by omega)]

/-- Whole-function equivalence for the signed variant, on inputs where no
machine operation overflows: `v` above the minimum `int64`, step a valid
`int64`, doubled remainder below `2^63`, round-up result (when taken)
below `2^63`. -/
theorem Int64_eq_spec (v n : Int) (hv1 : -(2 ^ 63) < v) (hv2 : v < 2 ^ 63)
    (hn : 1 < n) (hn2 : n < 2 ^ 63)
    (h2r : 2 * ((v.natAbs : Int) % n) < 2 ^ 63)
    (hup : n ≤ 2 * ((v.natAbs : Int) % n) →
      (v.natAbs : Int) + n - (v.natAbs : Int) % n < 2 ^ 63) :
    Int64 v n = specRoundToStep v n := by
  have ha0 : (0:Int) ≤ (v.natAbs : Int) := by positivity
  have ha2 : (v.natAbs : Int) < 2 ^ 63 := by omega
  unfold Int64 specRoundToStep
  rw [if_neg (by omega : ¬ n ≤ 1), if_neg (by omega : ¬ n ≤ 1)]
  rcases lt_or_le v 0 with hv | hv
  · rw [if_pos hv, if_pos hv]
    have hwv : wrap64 (-v) = (v.natAbs : Int) := by
      rw [wrap64_eq_self (by omega) (by omega)]
      omega
    rw [hwv, stepRound_eq_spec _ n ha0 ha2 hn hn2 h2r hup]
    have hb := specPosRound_bounds (v.natAbs : Int) n ha0 hn
    have hbu : specPosRound (v.natAbs : Int) n < 2 ^ 63 := by
      rcases le_or_lt n (2 * ((v.natAbs : Int) % n)) with h | h
      · have := hup h; omega
      · have hr2 : (v.natAbs : Int) % n < n := Int.emod_lt_of_pos _ (by omega)
        unfold specPosRound
        rw [if_pos (by omega)]
        have hr1 : 0 ≤ (v.natAbs : Int) % n := Int.emod_nonneg _ (by omega)
        omega
    exact wrap64_eq_self (by omega) (by omega)
  · rw [if_neg (by omega), if_neg (by omega)]
    have hva : v = (v.natAbs : Int) := by omega
    rw [← hva]
    exact stepRound_eq_spec v n hv hv2 hn hn2 (by rw [← hva] at h2r; exact h2r)
      (by rw [← hva] at hup; exact hup)

/-- Whole-function equivalence for the unsigned variant, on inputs where no
machine operation overflows at `2^64`. -/
theorem Uint64_eq_spec (v n : Int) (hv1 : 0 ≤ v) (hv2 : v < 2 ^ 64)
    (hn : 1 < n) (hn2 : n < 2 ^ 64)
    (h2r : 2 * (v % n) < 2 ^ 64)
    (hup : n ≤ 2 * (v % n) → v + n - v % n < 2 ^ 64) :
    Uint64 v n = specRoundToStepU v n := by
  have hr1 : 0 ≤ v % n := Int.emod_nonneg v (by omega)
  have hr2 : v % n < n := Int.emod_lt_of_pos v (by omega)
  have hra : v % n ≤ v := by
    rcases lt_or_le v n with h | h
    · rw [Int.emod_eq_of_lt hv1 h]
    · omega
  unfold Uint64 specRoundToStepU specPosRound
  rw [if_neg (by omega : ¬ n ≤ 1), if_neg (by omega : ¬ n ≤ 1)]
  have hrr : uwrap64 (v % n + v % n) = v % n + v % n :=
    uwrap64_eq_self (by omega) (by omega)
  rw [hrr]
  rcases lt_or_le (v % n + v % n) n with h | h
  · rw [if_pos h, if_pos (by omega)]
    exact uwrap64_eq_self (by omega) (by omega)
  · rw [if_neg (by omega), if_neg (by omega), uwrap64_wrap_sub]
    have hb := hup (by omega)
    exact uwrap64_eq_self (by omega) (by omega)

theorem DurationN_succ_nonneg (f : Nat) (d n : Int)
    (h0 : ¬ n ≤ 0) (h1 : ¬ d < 0) :
    DurationN (f + 1) d n = durationNBody d n := by
  simp [DurationN, h0, h1]

theorem digitCountGo_cast (f : Nat) (v : Int) :
    digitCountGo f v = (decimalDigitsGo f v.toNat : Int) := by
  induction f generalizing v with
  | zero => rfl
  | succ f ih =>
    show (if 9 < v then digitCountGo f (v / 10) + 1 else 1)
      = ((if 9 < v.toNat then decimalDigitsGo f (v.toNat / 10) + 1 else 1 : Nat) : Int)
    rcases lt_or_le 9 v with h | h
    · rw [if_pos h, if_pos (by omega : 9 < v.toNat), ih (v / 10),
        (by omega : (v / 10).toNat = v.toNat / 10)]
      push_cast
      ring
    · rw [if_neg (not_lt.mpr h), if_neg (by omega : ¬ 9 < v.toNat)]
      rfl

theorem decimalDigitsGo_fuel (f g m : Nat) (hf : m < 10 ^ f) (hg : m < 10 ^ g) :
    decimalDigitsGo f m = decimalDigitsGo g m := by
  induction f generalizing g m with
  | zero =>
    have hm : m = 0 := by simpa using hf
    subst hm
    cases g with
    | zero => rfl
    | succ g => simp [decimalDigitsGo]
  | succ f ih =>
    cases g with
    | zero =>
      have hm : m = 0 := by simpa using hg
      subst hm
      simp [decimalDigitsGo]
    | succ g =>
      show (if 9 < m then decimalDigitsGo f (m / 10) + 1 else 1)
        = (if 9 < m then decimalDigitsGo g (m / 10) + 1 else 1)
      rcases lt_or_le 9 m with h | h
      · rw [if_pos h, if_pos h,
          ih g (m / 10) (Nat.div_lt_iff_lt_mul (by omega) |>.mpr
            (by rw [← pow_succ]; exact hf))
            (Nat.div_lt_iff_lt_mul (by omega) |>.mpr
              (by rw [← pow_succ]; exact hg))]
      · rw [if_neg (not_lt.mpr h), if_neg (not_lt.mpr h)]

theorem digitCountLoop_eq (v : Int) (h0 : 0 ≤ v) (h1 : v < 2 ^ 64) :
    digitCountLoop v = (decimalDigits v.toNat : Int) := by
  unfold digitCountLoop decimalDigits
  rw [digitCountGo_cast 20 v,
    decimalDigitsGo_fuel 20 v.toNat v.toNat
      (lt_of_lt_of_le (by omega : v.toNat < 2 ^ 64)
        (by norm_num : (2:Nat) ^ 64 ≤ 10 ^ 20))
      (Nat.lt_pow_self (by norm_num) v.toNat)]

theorem i64digits_eq_decimal (v : Int) (h1 : -(2 ^ 63) < v) (h2 : v < 2 ^ 63) :
    i64digits v = (decimalDigits v.natAbs : Int) := by
  unfold i64digits
  rcases lt_or_le v 0 with h | h
  · rw [if_pos h, wrap64_eq_self (by omega) (by omega),
      digitCountLoop_eq (-v) (by omega) (by omega),
      show (-v).toNat = v.natAbs from by omega]
  · rw [if_neg (not_lt.mpr h), digitCountLoop_eq v h (by omega),
      show v.toNat = v.natAbs from by omega]

theorem u64digits_eq_decimal (v : Int) (h0 : 0 ≤ v) (h1 : v < 2 ^ 64) :
    u64digits v = (decimalDigits v.toNat : Int) :=
  digitCountLoop_eq v h0 h1

theorem decimalDigitsGo_le (f m k : Nat) (hk : 1 ≤ k) (h : m < 10 ^ k) :
    decimalDigitsGo f m ≤ k := by
  induction f generalizing m k with
  | zero => exact hk
  | succ f ih =>
    show (if 9 < m then decimalDigitsGo f (m / 10) + 1 else 1) ≤ k
    rcases lt_or_le 9 m with hm | hm
    · rw [if_pos hm]
      cases k with
      | zero => omega
      | succ k =>
        have hk1 : 1 ≤ k := by
          rcases Nat.eq_zero_or_pos k with h0 | h0
          · subst h0; simp at h; omega
          · exact h0
        have hmk : m / 10 < 10 ^ k :=
          Nat.div_lt_iff_lt_mul (by omega) |>.mpr (by rw [← pow_succ]; exact h)
        have := ih (m / 10) k hk1 hmk
        omega
    · rw [if_neg (not_lt.mpr hm)]
      exact hk

theorem decimalDigits_le (m k : Nat) (hk : 1 ≤ k) (h : m < 10 ^ k) :
    decimalDigits m ≤ k := decimalDigitsGo_le m m k hk h

theorem i64pow10_pos (e : Int) (h1 : 0 ≤ e) (h2 : e ≤ 18) :
    i64pow10 1 e = some ((10:Int) ^ e.toNat) := by
  unfold i64pow10 pow10tab
  rw [if_neg (by omega : ¬ e < 0), if_pos (by omega : e.toNat < 20)]
  have hb : (10:Int) ^ e.toNat < 2 ^ 63 := by
    calc (10:Int) ^ e.toNat ≤ 10 ^ 18 :=
          pow_le_pow_right₀ (by norm_num) (by omega)
    _ < 2 ^ 63 := by norm_num
  have h0 : (0:Int) ≤ (10:Int) ^ e.toNat := by positivity
  have hw : wrap64 ((10:Int) ^ e.toNat) = (10:Int) ^ e.toNat :=
    wrap64_eq_self (by omega) hb
  simp [hw]

theorem u64pow10_pos (e : Int) (h1 : 0 ≤ e) (h2 : e ≤ 19) :
    u64pow10 1 e = some ((10:Int) ^ e.toNat) := by
  unfold u64pow10 pow10tab
  rw [if_neg (by omega : ¬ e < 0), if_pos (by omega : e.toNat < 20)]
  have hb : (10:Int) ^ e.toNat < 2 ^ 64 := by
    calc (10:Int) ^ e.toNat ≤ 10 ^ 19 :=
          pow_le_pow_right₀ (by norm_num) (by omega)
    _ < 2 ^ 64 := by norm_num
  have h0 : (0:Int) ≤ (10:Int) ^ e.toNat := by positivity
  simp [uwrap64_eq_self h0 hb]

/-- Source behaviour of `Int64N` on non-minimal `int64` inputs, phrased
with the spec-side digit count. -/
theorem Int64N_eq (v n : Int) (hv1 : -(2 ^ 63) < v) (hv2 : v < 2 ^ 63)
    (hn : 0 < n) :
    Int64N v n =
      if n < (decimalDigits v.natAbs : Int)
      then some (Int64 v ((10:Int) ^ ((decimalDigits v.natAbs : Int) - n).toNat))
      else some v := by
  unfold Int64N
  rw [if_neg (by omega : ¬ n ≤ 0), i64digits_eq_decimal v hv1 hv2]
  have hd19 : decimalDigits v.natAbs ≤ 19 :=
    decimalDigits_le v.natAbs 19 (by omega)
      (lt_of_lt_of_le (by omega : v.natAbs < 2 ^ 63)
        (by norm_num : (2:Nat) ^ 63 ≤ 10 ^ 19))
  rcases lt_or_le n ((decimalDigits v.natAbs : Int)) with h | h
  · rw [if_pos (by omega), if_pos h,
      i64pow10_pos _ (by omega) (by omega)]
    rfl
  · rw [if_neg (by omega), if_neg (by omega)]

/-- Source behaviour of `Uint64N`, phrased with the spec-side digit
count. -/
theorem Uint64N_eq (v n : Int) (hv1 : 0 ≤ v) (hv2 : v < 2 ^ 64)
    (hn : 0 < n) :
    Uint64N v n =
      if n < (decimalDigits v.toNat : Int)
      then some (Uint64 v ((10:Int) ^ ((decimalDigits v.toNat : Int) - n).toNat))
      else some v := by
  unfold Uint64N
  rw [if_neg (by omega : ¬ n ≤ 0), u64digits_eq_decimal v hv1 hv2]
  have hd20 : decimalDigits v.toNat ≤ 20 :=
    decimalDigits_le v.toNat 20 (by omega)
      (lt_of_lt_of_le (by omega : v.toNat < 2 ^ 64)
        (by norm_num : (2:Nat) ^ 64 ≤ 10 ^ 20))
  rcases lt_or_le n ((decimalDigits v.toNat : Int)) with h | h
  · rw [if_pos (by omega), if_pos h,
      u64pow10_pos _ (by omega) (by omega)]
    rfl
  · rw [if_neg (by omega), if_neg (by omega)]

theorem DurationN_succ_neg (f : Nat) (d n : Int)
    (h0 : ¬ n ≤ 0) (h1 : d < 0) :
    DurationN (f + 1) d n =
      match DurationN f (wrap64 (-d)) n with
      | Res.ok x => Res.ok (wrap64 (-x))
      | r => r := by
  simp [DurationN, h0, h1]

theorem specRoundToStep_dvd (v n : Int) (hn : 1 < n) :
    n ∣ specRoundToStep v n := by
  unfold specRoundToStep
  rw [if_neg (by omega : ¬ n ≤ 1)]
  split
  · exact dvd_neg.mpr (specPosRound_dvd _ n)
  · exact specPosRound_dvd _ n

theorem specPosRound_lt (a n B : Int) (ha2 : a < B)
    (hn : 1 < n) (hup : n ≤ 2 * (a % n) → a + n - a % n < B) :
    specPosRound a n < B := by
  have hr1 : 0 ≤ a % n := Int.emod_nonneg a (by omega)
  have hr2 : a % n < n := Int.emod_lt_of_pos a (by omega)
  unfold specPosRound
  split
  · omega
  · exact hup (by omega)

theorem specPosRound_self (a n : Int) (hn : 0 < n) (hmod : a % n = 0) :
    specPosRound a n = a := by
  unfold specPosRound
  rw [hmod, if_pos (by omega)]
  omega

theorem specRoundToStep_idem (s n : Int) (hn : 1 < n) (hdvd : n ∣ s) :
    specRoundToStep s n = s := by
  have hmod : ((s.natAbs : Int)) % n = 0 :=
    Int.emod_eq_zero_of_dvd (Int.dvd_natAbs.mpr hdvd)
  unfold specRoundToStep
  rw [if_neg (by omega : ¬ n ≤ 1)]
  rcases lt_or_le s 0 with h | h
  · rw [if_pos h, specPosRound_self _ n (by omega) hmod]
    omega
  · rw [if_neg (not_lt.mpr h), specPosRound_self _ n (by omega) hmod]
    omega

theorem specRoundToStepU_idem (s n : Int) (hn : 1 < n) (hdvd : n ∣ s) :
    specRoundToStepU s n = s := by
  unfold specRoundToStepU
  rw [if_neg (by omega : ¬ n ≤ 1)]
  exact specPosRound_self s n (by omega) (Int.emod_eq_zero_of_dvd hdvd)

/-- C1 counterexample: at `v = 2^62 + 1`, `n = 2^63 - 1` the machine
addition `r + r` wraps to a negative `int64`, so `Int64` rounds down to `0`
while the claimed abs / `2r < n` / restore-sign algorithm rounds up to
`n`. -/
theorem claim1_counterexample :
    Int64 4611686018427387905 9223372036854775807 ≠
      specRoundToStep 4611686018427387905 9223372036854775807 := by
  decide

/-- C1 (amended): for every signed `int64` value `v` above the minimum and
step `1 < n`, provided the doubled remainder `2(|v| mod n)` and — when the
round-up branch is taken — the rounded-up value stay below `2^63`,
`Int64 v n` takes the absolute value, computes `r = |v| mod n`, subtracts
`r` when `2r < n` and otherwise adds `n - r`, then restores the sign; an
exact tie rounds to the larger magnitude (`Int64 7 2 = 8`,
`Int64 (-420) 25 = -425`), and `Uint64` behaves identically without the
sign step under the corresponding `2^64` bounds. -/
theorem claim1_algorithm :
    (∀ v n : Int, -(2 ^ 63) < v → v < 2 ^ 63 → 1 < n → n < 2 ^ 63 →
      2 * ((v.natAbs : Int) % n) < 2 ^ 63 →
      (n ≤ 2 * ((v.natAbs : Int) % n) →
        (v.natAbs : Int) + n - (v.natAbs : Int) % n < 2 ^ 63) →
      Int64 v n = specRoundToStep v n)
    ∧ Int64 7 2 = 8 ∧ Int64 (-420) 25 = -425
    ∧ (∀ v n : Int, 0 ≤ v → v < 2 ^ 64 → 1 < n → n < 2 ^ 64 →
      2 * (v % n) < 2 ^ 64 →
      (n ≤ 2 * (v % n) → v + n - v % n < 2 ^ 64) →
      Uint64 v n = specRoundToStepU v n) :=
  ⟨Int64_eq_spec, by decide, by decide, Uint64_eq_spec⟩

/-- Witness for C1 at the tie inputs `(7, 2)` (signed) and `(420, 25)`
(unsigned). -/
theorem claim1_algorithm_witness :
    Int64 7 2 = specRoundToStep 7 2 ∧
    Uint64 420 25 = specRoundToStepU 420 25 :=
  ⟨claim1_algorithm.1 7 2 (by decide) (by decide) (by decide) (by decide)
      (by decide) (by decide),
    claim1_algorithm.2.2.2 420 25 (by decide) (by decide) (by decide)
      (by decide) (by decide) (by decide)⟩

/-- C2: `DurationN` rounds a duration to `n` significant figures tier by
tier, so for `1h35m42.567s` (5742567000000 ns) it returns `2h0m0s`,
`1h40m0s`, `1h36m0s`, `1h35m40s` for `n = 1..4`, and
`DurationN(3.789s, 1) = 4s`, `DurationN(1.567ms, 3) = 1.57ms`,
`DurationN(-41.5ms, 2) = -42ms` — with any sufficient recursion fuel. -/
theorem claim2_durationN_examples : ∀ f : Nat,
    DurationN (f + 2) 5742567000000 1 = Res.ok 7200000000000 ∧
    DurationN (f + 2) 5742567000000 2 = Res.ok 6000000000000 ∧
    DurationN (f + 2) 5742567000000 3 = Res.ok 5760000000000 ∧
    DurationN (f + 2) 5742567000000 4 = Res.ok 5740000000000 ∧
    DurationN (f + 2) 3789000000 1 = Res.ok 4000000000 ∧
    DurationN (f + 2) 1567000 3 = Res.ok 1570000 ∧
    DurationN (f + 2) (-41500000) 2 = Res.ok (-42000000) := by
  intro f
  refine ⟨?_, ?_, ?_, ?_, ?_, ?_, ?_⟩
  · rw [DurationN_succ_nonneg (f + 1) _ _ (by decide) (by decide)]; decide
  · rw [DurationN_succ_nonneg (f + 1) _ _ (by decide) (by decide)]; decide
  · rw [DurationN_succ_nonneg (f + 1) _ _ (by decide) (by decide)]; decide
  · rw [DurationN_succ_nonneg (f + 1) _ _ (by decide) (by decide)]; decide
  · rw [DurationN_succ_nonneg (f + 1) _ _ (by decide) (by decide)]; decide
  · rw [DurationN_succ_nonneg (f + 1) _ _ (by decide) (by decide)]; decide
  · rw [DurationN_succ_neg (f + 1) _ _ (by decide) (by decide),
      DurationN_succ_nonneg f _ _ (by decide) (by decide)]
    decide

/-- C3: the claim asserts no public call reaches an out-of-table
power-of-ten exponent; in fact `DurationN(1h, 23)` computes the exponent
`1 - 22 = -21` and indexes `pow10tab[21]`, beyond the table's last index
19 — a Go run-time panic — for every recursion fuel. -/
theorem claim3_durationN_out_of_table :
    ∀ f : Nat, DurationN (f + 1) 3600000000000 23 = Res.panic := by
  intro f
  rw [DurationN_succ_nonneg f _ _ (by decide) (by decide)]
  decide

/-- C4: the claim asserts `digitCount` matches the decimal length of `|v|`
on the full signed range including the minimum `int64`; in fact
`i64digits` of the minimum value returns 1 — the machine negation wraps to
the same negative number and the counting loop never runs — while
`|minInt64| = 2^63` has 19 decimal digits. -/
theorem claim4_digits_min_evaluation :
    i64digits (-9223372036854775808) = 1 ∧
    decimalDigits (Int.natAbs (-9223372036854775808)) = 19 := by
  decide

/-- C5 counterexample: rounding the maximum `int64` up by step 10 wraps,
producing `-9223372036854775806`, which is not a multiple of 10. -/
theorem claim5_counterexample :
    ¬ Int64 9223372036854775807 10 % 10 = 0 := by
  decide

/-- C5 (amended): for every value and valid step such that no machine
operation overflows (the bounds of C1), the rounded result is an exact
multiple of the step, for both the signed and the unsigned variant. -/
theorem claim5_multiple_of_step :
    (∀ v n : Int, -(2 ^ 63) < v → v < 2 ^ 63 → 1 < n → n < 2 ^ 63 →
      2 * ((v.natAbs : Int) % n) < 2 ^ 63 →
      (n ≤ 2 * ((v.natAbs : Int) % n) →
        (v.natAbs : Int) + n - (v.natAbs : Int) % n < 2 ^ 63) →
      Int64 v n % n = 0)
    ∧ (∀ v n : Int, 0 ≤ v → v < 2 ^ 64 → 1 < n → n < 2 ^ 64 →
      2 * (v % n) < 2 ^ 64 →
      (n ≤ 2 * (v % n) → v + n - v % n < 2 ^ 64) →
      Uint64 v n % n = 0) := by
  constructor
  · intro v n h1 h2 h3 h4 h5 h6
    rw [Int64_eq_spec v n h1 h2 h3 h4 h5 h6]
    exact Int.emod_eq_zero_of_dvd (specRoundToStep_dvd v n h3)
  · intro v n h1 h2 h3 h4 h5 h6
    rw [Uint64_eq_spec v n h1 h2 h3 h4 h5 h6]
    unfold specRoundToStepU
    rw [if_neg (by omega : ¬ n ≤ 1)]
    exact Int.emod_eq_zero_of_dvd (specPosRound_dvd v n)

/-- Witness for C5 at `(123, 10)` (signed) and `(34, 10)` (unsigned). -/
theorem claim5_multiple_of_step_witness :
    Int64 123 10 % 10 = 0 ∧ Uint64 34 10 % 10 = 0 :=
  ⟨claim5_multiple_of_step.1 123 10 (by decide) (by decide) (by decide)
      (by decide) (by decide) (by decide),
    claim5_multiple_of_step.2 34 10 (by decide) (by decide) (by decide)
      (by decide) (by decide) (by decide)⟩

/-- C6 counterexample: rounding the maximum `int64` by step 10 wraps to a
negative value, so the result is further than `10/2` from the input. -/
theorem claim6_counterexample :
    ¬ 2 * ((Int64 9223372036854775807 10 - 9223372036854775807).natAbs : Int)
      ≤ 10 := by
  decide

/-- C6 (amended): for every value and valid step such that no machine
operation overflows (the bounds of C1), the rounded result differs from
the input by at most half the step, and the difference is exactly half the
step only when rounding up, i.e. when the result moves away from zero —
for both the signed and the unsigned variant. -/
theorem claim6_within_half_step :
    (∀ v n : Int, -(2 ^ 63) < v → v < 2 ^ 63 → 1 < n → n < 2 ^ 63 →
      2 * ((v.natAbs : Int) % n) < 2 ^ 63 →
      (n ≤ 2 * ((v.natAbs : Int) % n) →
        (v.natAbs : Int) + n - (v.natAbs : Int) % n < 2 ^ 63) →
      2 * ((Int64 v n - v).natAbs : Int) ≤ n ∧
        (2 * ((Int64 v n - v).natAbs : Int) = n →
          (v.natAbs : Int) < ((Int64 v n).natAbs : Int)))
    ∧ (∀ v n : Int, 0 ≤ v → v < 2 ^ 64 → 1 < n → n < 2 ^ 64 →
      2 * (v % n) < 2 ^ 64 →
      (n ≤ 2 * (v % n) → v + n - v % n < 2 ^ 64) →
      2 * ((Uint64 v n - v).natAbs : Int) ≤ n ∧
        (2 * ((Uint64 v n - v).natAbs : Int) = n → v < Uint64 v n)) := by
  constructor
  · intro v n h1 h2 h3 h4 h5 h6
    rw [Int64_eq_spec v n h1 h2 h3 h4 h5 h6]
    have hr1 : 0 ≤ (v.natAbs : Int) % n := Int.emod_nonneg _ (by omega)
    have hr2 : (v.natAbs : Int) % n < n := Int.emod_lt_of_pos _ (by omega)
    have hra : (v.natAbs : Int) % n ≤ (v.natAbs : Int) := by
      rcases lt_or_le ((v.natAbs : Int)) n with h | h
      · rw [Int.emod_eq_of_lt (by positivity) h]
      · omega
    unfold specRoundToStep specPosRound
    rw [if_neg (by omega : ¬ n ≤ 1)]
    split_ifs <;> constructor <;> omega
  · intro v n h1 h2 h3 h4 h5 h6
    rw [Uint64_eq_spec v n h1 h2 h3 h4 h5 h6]
    have hr1 : 0 ≤ v % n := Int.emod_nonneg _ (by omega)
    have hr2 : v % n < n := Int.emod_lt_of_pos _ (by omega)
    have hra : v % n ≤ v := by
      rcases lt_or_le v n with h | h
      · rw [Int.emod_eq_of_lt h1 h]
      · omega
    unfold specRoundToStepU specPosRound
    rw [if_neg (by omega : ¬ n ≤ 1)]
    split_ifs <;> constructor <;> omega

/-- Witness for C6 at `(7, 2)` (a tie, rounding up) and `(34, 10)`
(unsigned, rounding down). -/
theorem claim6_within_half_step_witness :
    (2 * ((Int64 7 2 - 7).natAbs : Int) ≤ 2 ∧
      (2 * ((Int64 7 2 - 7).natAbs : Int) = 2 →
        ((7:Int).natAbs : Int) < ((Int64 7 2).natAbs : Int))) ∧
    2 * ((Uint64 34 10 - 34).natAbs : Int) ≤ 10 :=
  ⟨claim6_within_half_step.1 7 2 (by decide) (by decide) (by decide)
      (by decide) (by decide) (by decide),
    (claim6_within_half_step.2 34 10 (by decide) (by decide) (by decide)
      (by decide) (by decide) (by decide)).1⟩

/-- C7 counterexample: the minimum `int64` has 19 decimal digits, more
than `n = 1`, yet `Int64N` returns it unchanged instead of rounding it to
the step `10^18`, because `i64digits` miscounts it as 1 digit. -/
theorem claim7_counterexample :
    1 < decimalDigits (Int.natAbs (-9223372036854775808)) ∧
    Int64N (-9223372036854775808) 1 ≠
      some (Int64 (-9223372036854775808)
        ((10:Int) ^
          (((decimalDigits (Int.natAbs (-9223372036854775808)) : Int) - 1).toNat))) := by
  constructor
  · decide
  · decide

/-- C7 (amended): for every signed `int64` value above the minimum (and
every unsigned value) with more than `n > 0` decimal digits, rounding to
`n` significant digits equals rounding to the step
`10^(digitCount - n)`, and otherwise returns the value unchanged; in
particular `Int64N 12895 2 = 13000`, `Int64N 4213 1 = 4000`,
`Int64N (-567) 2 = -570`. -/
theorem claim7_significant_digits :
    (∀ v n : Int, -(2 ^ 63) < v → v < 2 ^ 63 → 0 < n →
      Int64N v n =
        if n < (decimalDigits v.natAbs : Int)
        then some (Int64 v
          ((10:Int) ^ ((decimalDigits v.natAbs : Int) - n).toNat))
        else some v)
    ∧ Int64N 12895 2 = some 13000 ∧ Int64N 4213 1 = some 4000
    ∧ Int64N (-567) 2 = some (-570)
    ∧ (∀ v n : Int, 0 ≤ v → v < 2 ^ 64 → 0 < n →
      Uint64N v n =
        if n < (decimalDigits v.toNat : Int)
        then some (Uint64 v
          ((10:Int) ^ ((decimalDigits v.toNat : Int) - n).toNat))
        else some v) :=
  ⟨Int64N_eq, by decide, by decide, by decide, Uint64N_eq⟩

/-- Witness for C7 at `(12895, 2)`, signed and unsigned. -/
theorem claim7_significant_digits_witness :
    (Int64N 12895 2 =
      if (2:Int) < (decimalDigits (Int.natAbs 12895) : Int)
      then some (Int64 12895
        ((10:Int) ^ ((decimalDigits (Int.natAbs 12895) : Int) - 2).toNat))
      else some 12895) ∧
    (Uint64N 12895 2 =
      if (2:Int) < (decimalDigits (Int.toNat 12895) : Int)
      then some (Uint64 12895
        ((10:Int) ^ ((decimalDigits (Int.toNat 12895) : Int) - 2).toNat))
      else some 12895) :=
  ⟨claim7_significant_digits.1 12895 2 (by decide) (by decide) (by decide),
    claim7_significant_digits.2.2.2.2 12895 2 (by decide) (by decide)
      (by decide)⟩

/-- C8 counterexample: rounding the maximum `int64` by step 10 wraps, and
applying `Int64` again with the same step moves the (now negative,
non-multiple) result again: rounding is not idempotent there. -/
theorem claim8_counterexample :
    Int64 (Int64 9223372036854775807 10) 10 ≠ Int64 9223372036854775807 10 := by
  decide

/-- C8 (amended): for every value and valid step such that no machine
operation overflows (the bounds of C1), applying `Int64` (or `Uint64`) a
second time with the same step returns the already-rounded result
unchanged, because that result is an exact multiple of the step. -/
theorem claim8_idempotent :
    (∀ v n : Int, -(2 ^ 63) < v → v < 2 ^ 63 → 1 < n → n < 2 ^ 63 →
      2 * ((v.natAbs : Int) % n) < 2 ^ 63 →
      (n ≤ 2 * ((v.natAbs : Int) % n) →
        (v.natAbs : Int) + n - (v.natAbs : Int) % n < 2 ^ 63) →
      Int64 (Int64 v n) n = Int64 v n)
    ∧ (∀ v n : Int, 0 ≤ v → v < 2 ^ 64 → 1 < n → n < 2 ^ 64 →
      2 * (v % n) < 2 ^ 64 →
      (n ≤ 2 * (v % n) → v + n - v % n < 2 ^ 64) →
      Uint64 (Uint64 v n) n = Uint64 v n) := by
  constructor
  · intro v n h1 h2 h3 h4 h5 h6
    rw [Int64_eq_spec v n h1 h2 h3 h4 h5 h6]
    have ha0 : (0:Int) ≤ (v.natAbs : Int) := by positivity
    have hp0 := (specPosRound_bounds (v.natAbs : Int) n ha0 h3).1
    have hpB : specPosRound (v.natAbs : Int) n < 2 ^ 63 :=
      specPosRound_lt _ n _ (by omega) h3 h6
    have hsb : -(2 ^ 63) < specRoundToStep v n ∧ specRoundToStep v n < 2 ^ 63 := by
      unfold specRoundToStep
      rw [if_neg (by omega : ¬ n ≤ 1)]
      constructor <;> split <;> omega
    have hdvd : n ∣ specRoundToStep v n := specRoundToStep_dvd v n h3
    have hmodAbs : ((specRoundToStep v n).natAbs : Int) % n = 0 :=
      Int.emod_eq_zero_of_dvd (Int.dvd_natAbs.mpr hdvd)
    rw [Int64_eq_spec (specRoundToStep v n) n hsb.1 hsb.2 h3 h4
      (by rw [hmodAbs]; norm_num)
      (fun hcon => by rw [hmodAbs] at hcon; omega)]
    exact specRoundToStep_idem _ n h3 hdvd
  · intro v n h1 h2 h3 h4 h5 h6
    rw [Uint64_eq_spec v n h1 h2 h3 h4 h5 h6]
    have hseq : specRoundToStepU v n = specPosRound v n := by
      unfold specRoundToStepU
      rw [if_neg (by omega : ¬ n ≤ 1)]
    have hp0 := (specPosRound_bounds v n h1 h3).1
    have hpB : specPosRound v n < 2 ^ 64 :=
      specPosRound_lt v n _ (by omega) h3 h6
    have hdvd : n ∣ specPosRound v n := specPosRound_dvd v n
    have hmod : specPosRound v n % n = 0 := Int.emod_eq_zero_of_dvd hdvd
    rw [Uint64_eq_spec (specRoundToStepU v n) n
      (by rw [hseq]; exact hp0) (by rw [hseq]; exact hpB) h3 h4
      (by rw [hseq, hmod]; norm_num)
      (fun hcon => by rw [hseq, hmod] at hcon; omega)]
    rw [hseq]
    exact specRoundToStepU_idem _ n h3 hdvd

/-- Witness for C8 at `(7, 2)` (signed) and `(34, 10)` (unsigned). -/
theorem claim8_idempotent_witness :
    Int64 (Int64 7 2) 2 = Int64 7 2 ∧
    Uint64 (Uint64 34 10) 10 = Uint64 34 10 :=
  ⟨claim8_idempotent.1 7 2 (by decide) (by decide) (by decide) (by decide)
      (by decide) (by decide),
    claim8_idempotent.2 34 10 (by decide) (by decide) (by decide)
      (by decide) (by decide) (by decide)⟩

/-- C9: a non-positive step argument (`Int64`, `Uint64`, `Duration`) or
non-positive significant-digit count (`Int64N`, `Uint64N`, `DurationN`)
makes the operation return its input unchanged, for both signed and
unsigned variants. -/
theorem claim9_nonpositive_noop :
    (∀ v n : Int, n ≤ 0 → Int64 v n = v)
    ∧ (∀ v n : Int, n ≤ 0 → Uint64 v n = v)
    ∧ (∀ d n : Int, n ≤ 0 → Duration d n = d)
    ∧ (∀ v n : Int, n ≤ 0 → Int64N v n = some v)
    ∧ (∀ v n : Int, n ≤ 0 → Uint64N v n = some v)
    ∧ (∀ (f : Nat) (d n : Int), n ≤ 0 → DurationN (f + 1) d n = Res.ok d) := by
  refine ⟨?_, ?_, ?_, ?_, ?_, ?_⟩
  · intro v n h
    unfold Int64
    rw [if_pos (by omega)]
  · intro v n h
    unfold Uint64
    rw [if_pos (by omega)]
  · intro d n h
    unfold Duration Int64
    rw [if_pos (by omega)]
  · intro v n h
    unfold Int64N
    rw [if_pos h]
  · intro v n h
    unfold Uint64N
    rw [if_pos h]
  · intro f d n h
    simp [DurationN, h]

/-- Witness for C9 across all six public operations. -/
theorem claim9_nonpositive_noop_witness :
    Int64 42 0 = 42 ∧ Uint64 7 0 = 7 ∧ Duration 5 (-3) = 5 ∧
    Int64N 9 (-1) = some 9 ∧ Uint64N 9 0 = some 9 ∧
    DurationN 1 123 (-2) = Res.ok 123 :=
  ⟨claim9_nonpositive_noop.1 42 0 (by decide),
    claim9_nonpositive_noop.2.1 7 0 (by decide),
    claim9_nonpositive_noop.2.2.1 5 (-3) (by decide),
    claim9_nonpositive_noop.2.2.2.1 9 (-1) (by decide),
    claim9_nonpositive_noop.2.2.2.2.1 9 0 (by decide),
    claim9_nonpositive_noop.2.2.2.2.2 0 123 (-2) (by decide)⟩

/-- C10: the claim asserts `DurationN` terminates for every duration
including the minimum `int64`; in fact at the minimum duration the machine
negation `-d` wraps to `d` itself, so the function recurses forever on the
same argument: no amount of recursion fuel ever produces a value. -/
theorem claim10_durationN_min_diverges :
    ∀ f : Nat, DurationN f (-9223372036854775808) 1 = Res.more := by
  intro f
  induction f with
  | zero => rfl
  | succ f ih =>
    rw [DurationN_succ_neg f _ _ (by decide) (by decide),
      show wrap64 (-(-9223372036854775808 : Int)) = -9223372036854775808 from
        by decide,
      ih]

end Round
